import Mathlib

/-!
Verification of the GOST R 54084-2010 OCR-recovery parsing pipeline
(`parse_gost54084.py`): line classification, numeric row extraction with
decimal-recovery repair, seasonal page segmentation, and dataset assembly.

Text lines are modelled as `List Char`; Python floats parsed from decimal
text are modelled as exact rationals `ℚ` (every operation the pipeline
performs on them — parsing decimal tokens, adding a single fractional
digit, comparisons, truncation to int — is exact decimal arithmetic).
-/

attribute [local semireducible] Rat.add Rat.mul Rat.inv Rat.sub Rat.ofScientific

namespace Gost54084

/-- Characters removed by Python `str.strip()` (ASCII whitespace). -/
def isPySpace (c : Char) : Bool :=
  c = ' ' || c = '\t' || c = '\n' || c = '\r' || c = '\x0b' || c = '\x0c'

/-- A raw text line. -/
abbrev Line := List Char

/-- Python `line.strip()`: drop leading and trailing whitespace. -/
def pyStrip (l : Line) : Line :=
  ((l.dropWhile isPySpace).reverse.dropWhile isPySpace).reverse

/-- Source `strip_line_prefix`: remove a leading line-number marker
matching the pattern whitespace, digits, then an arrow character;
a non-matching line is returned unchanged. -/
def stripLineMarker (l : Line) : Line :=
  let l1 := l.dropWhile isPySpace
  let ds := l1.takeWhile Char.isDigit
  let l2 := l1.dropWhile Char.isDigit
  match ds, l2 with
  | _ :: _, c :: rest => if c = '→' then rest else l
  | _, _ => l

/-- Value of a run of decimal digit characters, read left to right. -/
def digitsToNat (ds : List Char) : ℕ :=
  ds.foldl (fun n c => 10 * n + (c.toNat - 48)) 0

/-- Source `HEIGHTS`: the nine canonical height levels (meters). -/
def HEIGHTS : List ℤ := [10, 100, 300, 600, 1000, 1500, 2000, 2500, 3000]

/-- Source `HEIGHT_FIXES`: OCR-garbled height readings and their fixes. -/
def HEIGHT_FIXES : List (ℤ × ℤ) := [(1200, 1000), (5000, 3000)]

/-- Source `fix_height`: `HEIGHT_FIXES.get(h, h)`. -/
def fixHeight (h : ℤ) : ℤ :=
  match HEIGHT_FIXES.find? (fun p => p.1 == h) with
  | some p => p.2
  | none => h

/-- Source `ALL_VALID_HEIGHTS`: canonical heights plus garbled aliases. -/
def ALL_VALID_HEIGHTS : List ℤ := HEIGHTS ++ HEIGHT_FIXES.map Prod.fst

/-- The characters counted as numeric by `is_data_line`
(`'0123456789.-+ '`). -/
def NUMERIC_CHARS : List Char :=
  ['0', '1', '2', '3', '4', '5', '6', '7', '8', '9', '.', '-', '+', ' ']

/-- Source `is_data_line`: a stripped line is a data row when it is
non-empty, at least 85% of its characters are numeric characters
(`numeric/total < 0.85` rejects, encoded exactly as
`20 * numeric < 17 * total`), and its leading digit run is a recognized
height or alias. -/
def isDataLine (line : Line) : Bool :=
  let s := pyStrip line
  if s.isEmpty then false
  else if 20 * s.countP (fun c => decide (c ∈ NUMERIC_CHARS)) < 17 * s.length then
    false
  else
    let ds := s.takeWhile Char.isDigit
    if ds.isEmpty then false
    else decide ((digitsToNat ds : ℤ) ∈ ALL_VALID_HEIGHTS)

/-- Source regex substitution `(\d),(\d)` to `\1.\2`: scanning left to
right, a comma between two digits becomes a period, and (as with
`re.sub`) a replaced match is consumed, so scanning resumes after the
second digit. -/
def commaFix : List Char → List Char
  | c1 :: c2 :: c3 :: rest =>
    if c1.isDigit && c2 = ',' && c3.isDigit then c1 :: '.' :: c3 :: commaFix rest
    else c1 :: commaFix (c2 :: c3 :: rest)
  | l => l

/-- One attempted match of the token regex `-?\d+\.?\d*` at the head of
the list: an optional minus sign, a non-empty digit run, then optionally
a period with a (possibly empty) digit run. Returns the token's exact
rational value and the unconsumed remainder, or `none` when the regex
does not match here. -/
def parseNum (l : List Char) : Option (ℚ × List Char) :=
  let neg := l.head? == some '-'
  let l1 := if neg then l.tail else l
  let ds := l1.takeWhile Char.isDigit
  let l2 := l1.dropWhile Char.isDigit
  if ds.isEmpty then none
  else
    let fr : List Char × List Char :=
      if l2.head? = some '.' then
        (l2.tail.takeWhile Char.isDigit, l2.tail.dropWhile Char.isDigit)
      else ([], l2)
    let mag : ℚ := (digitsToNat ds : ℚ) + (digitsToNat fr.1 : ℚ) / (10 : ℚ) ^ fr.1.length
    some (if neg then -mag else mag, fr.2)

/-- Fuel-indexed scan for `re.findall`: at each position try the token
regex; on a match emit the value and resume after it, otherwise advance
one character. Each step consumes at least one character, so fuel equal
to the length of the list (as used in `findNumbers`) never runs out. -/
def findNumbersGo : ℕ → List Char → List ℚ
  | 0, _ => []
  | _, [] => []
  | Nat.succ fuel, c :: rest =>
    match parseNum (c :: rest) with
    | some (q, r) => q :: findNumbersGo fuel r
    | none => findNumbersGo fuel rest

/-- Source `re.findall(r'-?\d+\.?\d*', stripped)`, as exact rationals. -/
def findNumbers (l : List Char) : List ℚ :=
  findNumbersGo l.length l

/-- Python `int(float(x))`: truncation of a rational toward zero. -/
def truncQ (q : ℚ) : ℤ :=
  if 0 ≤ q then ⌊q⌋ else ⌈q⌉

/-- Source `extract_data_values`: strip, normalize digit-comma-digit to
a decimal point, extract all numeric tokens; fail when fewer than three
tokens are present, else return the alias-fixed truncated first token as
the height together with the remaining tokens as the row's values.
(The Python `try/except` around the conversions is dead: every string
matched by the token regex converts successfully.) -/
def extractDataValues (line : Line) : Option (ℤ × List ℚ) :=
  let stripped := commaFix (pyStrip line)
  match findNumbers stripped with
  | a :: b :: c :: rest => some (fixHeight (truncQ a), b :: c :: rest)
  | _ => none

/-- Source `parse_data_page` lines 174-187: per raw line, strip, remove
the line marker, keep the line only when `is_data_line` accepts it,
`extract_data_values` succeeds, and the extracted height is canonical. -/
def extractRows (rawLines : List Line) : List (ℤ × List ℚ) :=
  rawLines.filterMap fun raw =>
    let line := stripLineMarker (pyStrip raw)
    if isDataLine line then
      match extractDataValues line with
      | some (h, vs) => if h ∈ HEIGHTS then some (h, vs) else none
      | none => none
    else none

/-- Python `v == int(v)`: the float is integer-valued. For an exact
rational this is `den = 1`. -/
def isIntQ (q : ℚ) : Bool := q.den == 1

/-- The merge condition of `try_merge_split_decimals` (minus the budget
check): the first value is integer-valued with magnitude at least 1 and
the second is integer-valued in [0, 9]. -/
def mergeCond (v1 v2 : ℚ) : Bool :=
  isIntQ v1 && decide (1 ≤ |v1|) && isIntQ v2 && decide (0 ≤ v2) && decide (v2 ≤ 9)

/-- The merged value: `values[i] + sign * values[i+1] / 10.0` with
`sign = 1 if values[i] >= 0 else -1`. -/
def mergedVal (v1 v2 : ℚ) : ℚ :=
  v1 + (if 0 ≤ v1 then (1 : ℚ) else -1) * v2 / 10

/-- The scanning loop of `try_merge_split_decimals`, with `b` the
remaining merge budget (`excess - merges_done`). -/
def mergeGo : List ℚ → ℕ → List ℚ
  | [], _ => []
  | [v], _ => [v]
  | v1 :: v2 :: rest, 0 => v1 :: mergeGo (v2 :: rest) 0
  | v1 :: v2 :: rest, Nat.succ b =>
    if mergeCond v1 v2 then mergedVal v1 v2 :: mergeGo rest b
    else v1 :: mergeGo (v2 :: rest) (Nat.succ b)

/-- Source `try_merge_split_decimals`: identity when the value count is
already at most the expected count, else the greedy left-to-right merge
with budget equal to the excess. -/
def tryMergeSplitDecimals (values : List ℚ) (expectedCount : ℕ) : List ℚ :=
  if values.length ≤ expectedCount then values
  else mergeGo values (values.length - expectedCount)

/-- Source `SEASONS`. -/
def SEASONS : List String := ["winter", "spring", "summer", "autumn", "annual"]

/-- Positions of the boundary rows (height = 10), as in
`[i for i, (h, _) in enumerate(data_rows) if h == 10]`. -/
def seasonStarts (rows : List (ℤ × List ℚ)) : List ℕ :=
  (rows.enum.filter fun p => p.2.1 == 10).map Prod.fst

/-- Row-length reconciliation of `parse_data_page` lines 227-237: when
the row has more values than expected, attempt decimal-recovery repair;
then pad a short row at the end with the absent marker, or truncate a
long row from the end. -/
def buildRow (vals : List ℚ) (expectedVals : ℕ) : List (Option ℚ) :=
  let v := if expectedVals < vals.length then tryMergeSplitDecimals vals expectedVals
           else vals
  if v.length < expectedVals then
    v.map some ++ List.replicate (expectedVals - v.length) none
  else (v.map some).take expectedVals

/-- One seasonal block, `parse_data_page` lines 223-242: the rows from
`start` up to `min endRow (start + 9)` reconciled to the expected width,
then padded with fully-absent rows until the block has nine rows. -/
def seasonBlock (rows : List (ℤ × List ℚ)) (expectedVals start endRow : ℕ) :
    List (List (Option ℚ)) :=
  let taken := ((rows.drop start).take (min endRow (start + 9) - start)).map
    fun r => buildRow r.2 expectedVals
  taken ++ List.replicate (9 - taken.length) (List.replicate expectedVals none)

/-- End of the block for the season at index `i` starting at row
`start`: the next season start when one exists, else
`min (start + 9) rowsLen` (source line 219-221). -/
def endRowFor (starts : List ℕ) (i start rowsLen : ℕ) : ℕ :=
  match starts.get? (i + 1) with
  | some e => e
  | none => min (start + 9) rowsLen

/-- The season loop of `parse_data_page` lines 214-244: enumerate the
season starts, stopping after five; each block ends at the next start
position, or at `min (start + 9) rows.length` for the last one. The
result is the page's season-keyed blocks in insertion order. -/
def segmentRows (rows : List (ℤ × List ℚ)) (expectedVals : ℕ) (starts : List ℕ) :
    List (String × List (List (Option ℚ))) :=
  (starts.take 5).enum.map fun q =>
    (SEASONS.getD q.1 "", seasonBlock rows expectedVals q.2
      (endRowFor starts q.1 q.2 rows.length))

/-- Season-boundary selection of `parse_data_page` lines 195-246: use
the height-10 boundaries when there are exactly five; otherwise fall
back to the fixed partition `[0, 9, 18, 27, 36]` when at least 45 rows
were found; otherwise salvage with the boundaries found, failing only
when there are none. -/
def parsePageRows (rows : List (ℤ × List ℚ)) (expectedCols : ℕ) :
    Option (List (String × List (List (Option ℚ)))) :=
  let expectedVals := expectedCols * 2
  let ss := seasonStarts rows
  if ss.length = 5 then some (segmentRows rows expectedVals ss)
  else if 45 ≤ rows.length then some (segmentRows rows expectedVals [0, 9, 18, 27, 36])
  else if ss.isEmpty then none
  else some (segmentRows rows expectedVals ss)

/-- Source `parse_data_page`: `none` when the page resource is missing,
else extract the data rows and segment them. -/
def parsePage (fileLines : Option (List Line)) (expectedCols : ℕ) :
    Option (List (String × List (List (Option ℚ)))) :=
  match fileLines with
  | none => none
  | some lines => parsePageRows (extractRows lines) expectedCols

/-- Source `PARAMETERS` names, by parameter index 0-8. -/
def PARAM_NAMES : List String :=
  ["temperature", "pressure", "density", "scalar_wind_speed", "zonal_wind_speed",
   "meridional_wind_speed", "resultant_wind", "specific_humidity",
   "relative_humidity_dewpoint"]

/-- Source `LOCATION_GRIDS`: the (latitude, longitude) grid for each of
the twelve longitude-group indices. -/
def LOCATION_GRIDS : List (List (ℤ × ℤ)) :=
  [[(55, 20), (45, 30), (50, 30), (55, 30), (60, 30), (65, 30), (70, 30)],
   [(45, 40), (50, 40), (55, 40), (60, 40), (65, 40), (70, 40)],
   [(40, 50), (45, 50), (50, 50), (55, 50), (60, 50), (65, 50), (70, 50)],
   [(40, 60), (45, 60), (50, 60), (55, 60), (60, 60), (65, 60), (70, 60)],
   [(40, 70), (45, 70), (50, 70), (55, 70), (60, 70), (65, 70), (70, 70)],
   [(45, 80), (50, 80), (55, 80), (60, 80), (65, 80), (70, 80), (75, 80)],
   [(50, 90), (55, 90), (60, 90), (65, 90), (70, 90), (75, 90)],
   [(50, 105), (55, 105), (60, 105), (65, 105), (70, 105), (75, 105)],
   [(50, 120), (55, 120), (60, 120), (65, 120), (70, 120)],
   [(45, 135), (50, 135), (55, 135), (60, 135), (65, 135), (70, 135)],
   [(50, 155), (55, 155), (60, 155), (65, 155), (70, 155)],
   [(60, 175), (65, 175), (70, 175), (65, -170)]]

/-- Parameter name of a page: `PARAMETERS[(page_num - 9) // 12][0]`. -/
def paramNameOf (pageNum : ℕ) : String :=
  PARAM_NAMES.getD ((pageNum - 9) / 12) ""

/-- Location grid of a page: `LOCATION_GRIDS[(page_num - 9) % 12]`. -/
def gridOf (pageNum : ℕ) : List (ℤ × ℤ) :=
  LOCATION_GRIDS.getD ((pageNum - 9) % 12) []

/-- One write performed by `build_data_module` into the nested dataset
`all_data[param][loc][season] = height_data`. The assembled dataset is
modelled as the ordered log of these writes; dictionary lookup is the
last matching write. -/
structure Entry where
  param : String
  loc : ℤ × ℤ
  season : String
  heightData : List (Option ℚ × Option ℚ)
  deriving DecidableEq, Repr

/-- Source `build_data_module` lines 286-288: slot `j` of a row, absent
when the index is out of range or the stored value is the absent
marker. -/
def slotVal (row : List (Option ℚ)) (j : ℕ) : Option ℚ :=
  match row.get? j with
  | some v => if v.isSome then v else none
  | none => none

/-- The per-location height series of one seasonal block: the pair of
slots `2*i` and `2*i + 1` of every row, for the location at column
index `i`. -/
def mkHeightData (blk : List (List (Option ℚ))) (i : ℕ) :
    List (Option ℚ × Option ℚ) :=
  blk.map fun row => (slotVal row (2 * i), slotVal row (2 * i + 1))

/-- The writes `build_data_module` performs for one page (lines
277-291): seasons in block order, locations in grid order; no writes
when the page failed to parse. -/
def pageEntriesList (input : ℕ → Option (List Line)) (n : ℕ) : List Entry :=
  match parsePage (input n) (gridOf n).length with
  | none => []
  | some sd =>
    sd.flatMap fun p =>
      (gridOf n).enum.map fun q =>
        ⟨paramNameOf n, q.2, p.1, mkHeightData p.2 q.1⟩

/-- The page numbers processed by `build_data_module`: 9 to 116. -/
def pagesList : List ℕ := List.range' 9 108

/-- Source `build_data_module`: fold over all pages accumulating the
write log and the count of pages that failed to parse. -/
def buildDataModule (input : ℕ → Option (List Line)) : List Entry × ℕ :=
  pagesList.foldl
    (fun acc n =>
      match parsePage (input n) (gridOf n).length with
      | none => (acc.1, acc.2 + 1)
      | some _ => (acc.1 ++ pageEntriesList input n, acc.2))
    ([], 0)

/-- The writes performed for the (parameter, location) pair, in order.
The pair is present in the nested dataset iff this list is nonempty. -/
def entriesFor (input : ℕ → Option (List Line)) (p : String) (l : ℤ × ℤ) :
    List Entry :=
  (buildDataModule input).1.filter fun e => e.param == p && e.loc == l

/-- The season keys attached to a (parameter, location) pair, in write
order (Python dicts preserve insertion order, and each page writes each
of its season keys once per location). -/
def seasonsOf (input : ℕ → Option (List Line)) (p : String) (l : ℤ × ℤ) :
    List String :=
  (entriesFor input p l).map Entry.season

/-- Dictionary lookup on the write log: the value of
`all_data[p][l][s]` is the last write to that key. -/
def lookupSeason (entries : List Entry) (p : String) (l : ℤ × ℤ) (s : String) :
    Option (List (Option ℚ × Option ℚ)) :=
  ((entries.filter fun e => e.param == p && e.loc == l && e.season == s).map
    Entry.heightData).getLast?

/-- A complete nine-row season with boundary row 10, used as concrete
test data. -/
def fullSeason : List (ℤ × List ℚ) := HEIGHTS.map fun h => (h, [1, 2])

/-- A nine-row season whose boundary row was garbled away (height 10
read as 100), used as concrete test data. -/
def cutSeason : List (ℤ × List ℚ) :=
  HEIGHTS.map fun h => (if h = 10 then 100 else h, [1, 2])

/-- A 45-row page with only four season boundaries, used as concrete
test data. -/
def rows45 : List (ℤ × List ℚ) :=
  fullSeason ++ fullSeason ++ fullSeason ++ fullSeason ++ cutSeason

/-- A batch in which only page 9 exists and that page consists of the
single data line `10 1 2`, so its parse salvages a lone winter block.
Used as concrete test data. -/
def onePageInput : ℕ → Option (List Line) := fun n =>
  if n = 9 then some [("10 1 2".data)] else none

/-- The winter block parsed from the single line `10 1 2` when two
columns are expected: one real row reconciled to width four, then
eight fully-absent rows. Concrete test data. -/
def oneBlock : List (List (Option ℚ)) :=
  [some 1, some 2, none, none] :: List.replicate 8 (List.replicate 4 none)

/-- Each merge consumes one extra value, so the scan's output length is
between `l.length - b` and `l.length`. -/
theorem mergeGo_length : ∀ (l : List ℚ) (b : ℕ),
    l.length - b ≤ (mergeGo l b).length ∧ (mergeGo l b).length ≤ l.length
  | [], _ => by simp [mergeGo]
  | [v], _ => by simp [mergeGo]
  | v1 :: v2 :: rest, 0 => by
    have ih := mergeGo_length (v2 :: rest) 0
    simp only [mergeGo, List.length_cons] at *
    omega
  | v1 :: v2 :: rest, Nat.succ b => by
    have ih1 := mergeGo_length rest b
    have ih2 := mergeGo_length (v2 :: rest) (Nat.succ b)
    simp only [mergeGo, List.length_cons] at *
    split
    · simp only [List.length_cons]
      omega
    · simp only [List.length_cons]
      omega

/-- Claim C9: for every list of values whose length is already at most
the expected count, `try_merge_split_decimals` returns the list
unchanged. -/
theorem C9_merge_noop (values : List ℚ) (expected : ℕ)
    (h : values.length ≤ expected) :
    tryMergeSplitDecimals values expected = values := by
  simp [tryMergeSplitDecimals, h]

/-- Witness for C9 at a concrete already-correct row. -/
theorem C9_merge_noop_witness :
    tryMergeSplitDecimals [15 / 10, 2] 2 = [15 / 10, 2] :=
  C9_merge_noop [15 / 10, 2] 2 (by decide)

/-- Claim C2: with more values than expected, the repair performs at
most (length - expected) merges scanning left to right (so the output
length is between the expected count and the input length); a budgeted
adjacent pair in which the first value is integer-valued with magnitude
at least 1 and the second is integer-valued in [0, 9] is replaced by
first + sign(first) * (second / 10); a non-matching pair, or any pair
after the budget is exhausted, is left unmerged with the scan advancing
one value; and a row starting 261, 7 with exactly one excess value gets
261.7 as its first output value. -/
theorem C2_decimal_recovery :
    (∀ (values : List ℚ) (expected : ℕ), expected < values.length →
      expected ≤ (tryMergeSplitDecimals values expected).length ∧
        (tryMergeSplitDecimals values expected).length ≤ values.length) ∧
    (∀ (v1 v2 : ℚ) (rest : List ℚ) (b : ℕ),
      v1.den = 1 → 1 ≤ |v1| → v2.den = 1 → 0 ≤ v2 → v2 ≤ 9 →
      mergeGo (v1 :: v2 :: rest) (b + 1) =
        (v1 + (if 0 ≤ v1 then (1 : ℚ) else -1) * v2 / 10) :: mergeGo rest b) ∧
    (∀ (v1 v2 : ℚ) (rest : List ℚ) (b : ℕ), mergeCond v1 v2 = false →
      mergeGo (v1 :: v2 :: rest) b = v1 :: mergeGo (v2 :: rest) b) ∧
    (∀ (v1 v2 : ℚ) (rest : List ℚ),
      mergeGo (v1 :: v2 :: rest) 0 = v1 :: mergeGo (v2 :: rest) 0) ∧
    (∀ rest : List ℚ,
      (tryMergeSplitDecimals (261 :: 7 :: rest) (rest.length + 1)).head? =
        some (2617 / 10)) := by
  refine ⟨?_, ?_, ?_, ?_, ?_⟩
  · intro values expected h
    have hb := mergeGo_length values (values.length - expected)
    have : ¬ values.length ≤ expected := by omega
    simp only [tryMergeSplitDecimals, this, if_false]
    omega
  · intro v1 v2 rest b h1 h2 h3 h4 h5
    have hc : mergeCond v1 v2 = true := by
      simp [mergeCond, isIntQ, h1, h2, h3, h4, h5]
    simp [mergeGo, hc, mergedVal]
  · intro v1 v2 rest b h
    match b with
    | 0 => simp [mergeGo]
    | Nat.succ b => simp [mergeGo, h]
  · intro v1 v2 rest
    simp [mergeGo]
  · intro rest
    have hlen : ¬ ((261 : ℚ) :: 7 :: rest).length ≤ rest.length + 1 := by
      simp only [List.length_cons]
      omega
    have hexc : ((261 : ℚ) :: 7 :: rest).length - (rest.length + 1) = 1 := by
      simp only [List.length_cons]
      omega
    have hc : mergeCond 261 7 = true := by decide
    simp only [tryMergeSplitDecimals, hlen, if_false, hexc, mergeGo, hc, if_true]
    have : mergedVal 261 7 = 2617 / 10 := by
      rw [mergedVal]
      norm_num
    rw [this]
    rfl

/-- Row-length reconciliation always emits exactly the expected number
of values. -/
theorem buildRow_length (vals : List ℚ) (ev : ℕ) : (buildRow vals ev).length = ev := by
  simp only [buildRow]
  set v := if ev < vals.length then tryMergeSplitDecimals vals ev else vals with hv
  by_cases h : v.length < ev
  · rw [if_pos h]
    simp only [List.length_append, List.length_map, List.length_replicate]
    omega
  · rw [if_neg h]
    simp only [List.length_take, List.length_map]
    omega

/-- A seasonal block always has exactly nine rows. -/
theorem seasonBlock_length (rows : List (ℤ × List ℚ)) (ev s e : ℕ) :
    (seasonBlock rows ev s e).length = 9 := by
  simp only [seasonBlock, List.length_append, List.length_replicate, List.length_map,
    List.length_take, List.length_drop]
  omega

/-- Every row of a seasonal block has exactly the expected width. -/
theorem seasonBlock_rows (rows : List (ℤ × List ℚ)) (ev s e : ℕ) :
    ∀ row ∈ seasonBlock rows ev s e, row.length = ev := by
  intro row hrow
  simp only [seasonBlock, List.mem_append] at hrow
  rcases hrow with hrow | hrow
  · obtain ⟨r, -, rfl⟩ := List.mem_map.mp hrow
    exact buildRow_length r.2 ev
  · rw [List.eq_of_mem_replicate hrow]
    exact List.length_replicate ev none

/-- Every block produced by the season loop has nine rows of the
expected width. -/
theorem segmentRows_shape (rows : List (ℤ × List ℚ)) (ev : ℕ) (ss : List ℕ) :
    ∀ sb ∈ segmentRows rows ev ss, sb.2.length = 9 ∧ ∀ row ∈ sb.2, row.length = ev := by
  intro sb hsb
  obtain ⟨q, -, rfl⟩ := List.mem_map.mp hsb
  exact ⟨seasonBlock_length _ _ _ _, seasonBlock_rows _ _ _ _⟩

/-- Claim C1: whenever `parse_data_page` returns a result, every
seasonal block in it has exactly nine rows and every row has exactly
expected_cols * 2 values (long rows truncated after repair, short rows
padded with the absent marker, short blocks padded with fully-absent
rows). -/
theorem C1_page_shape (fileLines : Option (List Line)) (cols : ℕ)
    (sd : List (String × List (List (Option ℚ))))
    (h : parsePage fileLines cols = some sd) :
    ∀ sb ∈ sd, sb.2.length = 9 ∧ ∀ row ∈ sb.2, row.length = cols * 2 := by
  match fileLines with
  | none => simp [parsePage] at h
  | some lines =>
    simp only [parsePage, parsePageRows] at h
    split_ifs at h with h1 h2 h3 <;>
      first
        | (rw [Option.some_inj] at h
           subst h
           exact segmentRows_shape _ _ _)
        | simp at h

/-- Witness for C1: the parse of a one-line page with two expected
columns has a nine-row block whose first row has width four. -/
theorem C1_page_shape_witness :
    oneBlock.length = 9 ∧ [some (1 : ℚ), some 2, none, none].length = 2 * 2 :=
  ⟨(C1_page_shape (some [("10 1 2".data)]) 2 [("winter", oneBlock)] (by decide)
      ("winter", oneBlock) (by decide)).1,
   (C1_page_shape (some [("10 1 2".data)]) 2 [("winter", oneBlock)] (by decide)
      ("winter", oneBlock) (by decide)).2 [some (1 : ℚ), some 2, none, none]
      (by decide)⟩

/-- Number of blocks produced: one per season start, capped at five. -/
theorem segmentRows_count (rows : List (ℤ × List ℚ)) (ev : ℕ) (ss : List ℕ) :
    (segmentRows rows ev ss).length = min 5 ss.length := by
  simp [segmentRows, List.enum_length]

/-- Claim C3: with exactly five height-10 boundaries the page is split
at the boundaries (each block running to the next boundary, or to
`min (start + 9) rows.length` for the last, and clipped to nine rows
inside `seasonBlock`); with a wrong boundary count but at least 45 rows
it falls back to the fixed partition [0, 9, 18, 27, 36] yielding five
blocks; with a wrong count, fewer than 45 rows and no boundary at all
it fails; with at least one boundary it salvages using the boundaries
found; and each produced block index reads the block between its start
and `endRowFor`. -/
theorem C3_segmentation (rows : List (ℤ × List ℚ)) (cols : ℕ) :
    ((seasonStarts rows).length = 5 →
      parsePageRows rows cols = some (segmentRows rows (cols * 2) (seasonStarts rows))) ∧
    ((seasonStarts rows).length ≠ 5 → 45 ≤ rows.length →
      parsePageRows rows cols = some (segmentRows rows (cols * 2) [0, 9, 18, 27, 36]) ∧
      (segmentRows rows (cols * 2) [0, 9, 18, 27, 36]).length = 5) ∧
    ((seasonStarts rows).length ≠ 5 → rows.length < 45 → seasonStarts rows = [] →
      parsePageRows rows cols = none) ∧
    ((seasonStarts rows).length ≠ 5 → rows.length < 45 → seasonStarts rows ≠ [] →
      parsePageRows rows cols = some (segmentRows rows (cols * 2) (seasonStarts rows))) ∧
    (∀ (ss : List ℕ) (i start : ℕ), (ss.take 5).get? i = some start →
      (segmentRows rows (cols * 2) ss).get? i =
        some (SEASONS.getD i "",
          seasonBlock rows (cols * 2) start (endRowFor ss i start rows.length))) := by
  refine ⟨?_, ?_, ?_, ?_, ?_⟩
  · intro h5
    simp [parsePageRows, h5]
  · intro h5 h45
    refine ⟨by simp [parsePageRows, h5, h45], ?_⟩
    rw [segmentRows_count]
    rfl
  · intro h5 h45 hnil
    have h45x : ¬ 45 ≤ rows.length := by omega
    simp [parsePageRows, h5, h45x, hnil]
  · intro h5 h45 hne
    have h45x : ¬ 45 ≤ rows.length := by omega
    have hs : (seasonStarts rows).isEmpty = false := by
      simpa [List.isEmpty_iff] using hne
    simp [parsePageRows, h5, h45x, hs]
  · intro ss i start hget
    simp only [segmentRows, List.get?_map, List.get?_enum, hget]
    rfl

/-- Witness for C3: a 45-row page with only four boundaries falls back
to the fixed partition and still yields five blocks; an empty page
fails. -/
theorem C3_segmentation_witness :
    (parsePageRows rows45 1 = some (segmentRows rows45 (1 * 2) [0, 9, 18, 27, 36]) ∧
      (segmentRows rows45 (1 * 2) [0, 9, 18, 27, 36]).length = 5) ∧
    parsePageRows ([] : List (ℤ × List ℚ)) 1 = none :=
  ⟨(C3_segmentation rows45 1).2.1 (by decide) (by decide),
   (C3_segmentation [] 1).2.2.1 (by decide) (by decide) (by decide)⟩

/-- Unfolding of `is_data_line` into its four source-side conditions,
with the density test in cross-multiplied integer form. -/
theorem isDataLine_iff (line : Line) :
    isDataLine line = true ↔
      (pyStrip line ≠ [] ∧
       17 * (pyStrip line).length ≤
         20 * (pyStrip line).countP (fun c => decide (c ∈ NUMERIC_CHARS)) ∧
       (pyStrip line).takeWhile Char.isDigit ≠ [] ∧
       (digitsToNat ((pyStrip line).takeWhile Char.isDigit) : ℤ) ∈ ALL_VALID_HEIGHTS) := by
  have e1 : (pyStrip line).isEmpty = true ↔ pyStrip line = [] := List.isEmpty_iff
  have e3 : ((pyStrip line).takeWhile Char.isDigit).isEmpty = true ↔
      (pyStrip line).takeWhile Char.isDigit = [] := List.isEmpty_iff
  simp only [isDataLine]
  by_cases h1 : (pyStrip line).isEmpty
  · rw [if_pos h1]
    simp only [Bool.false_eq_true, false_iff]
    rintro ⟨hne, -⟩
    exact hne (e1.mp h1)
  · rw [if_neg h1]
    by_cases h2 : 20 * (pyStrip line).countP (fun c => decide (c ∈ NUMERIC_CHARS)) <
        17 * (pyStrip line).length
    · rw [if_pos h2]
      simp only [Bool.false_eq_true, false_iff]
      rintro ⟨-, hd, -⟩
      omega
    · rw [if_neg h2]
      by_cases h3 : ((pyStrip line).takeWhile Char.isDigit).isEmpty
      · rw [if_pos h3]
        simp only [Bool.false_eq_true, false_iff]
        rintro ⟨-, -, hne, -⟩
        exact hne (e3.mp h3)
      · rw [if_neg h3]
        simp only [decide_eq_true_eq]
        constructor
        · intro h
          exact ⟨fun hh => h1 (e1.mpr hh), by omega, fun hh => h3 (e3.mpr hh), h⟩
        · rintro ⟨-, -, -, h⟩
          exact h

/-- The 0.85 density threshold in rational form agrees with the exact
integer comparison used in the embedding. -/
theorem density_le_iff (c t : ℕ) (ht : 0 < t) :
    (85 : ℚ) / 100 ≤ (c : ℚ) / (t : ℚ) ↔ 17 * t ≤ 20 * c := by
  rw [div_le_div_iff₀ (by norm_num) (by exact_mod_cast ht)]
  have h : (85 * (t : ℚ) ≤ (c : ℚ) * 100) ↔ ((85 * t : ℕ) ≤ (c * 100 : ℕ)) := by
    exact_mod_cast Iff.rfl
  rw [h]
  omega

/-- Claim C8: `is_data_line` is a pure predicate accepting exactly the
lines whose stripped text is non-empty, whose fraction of numeric
characters (digits, period, signs, spaces) is at least 0.85, and whose
leading integer token exists and is one of the nine height levels or a
known OCR alias height. -/
theorem C8_line_classifier (line : Line) :
    isDataLine line = true ↔
      (pyStrip line ≠ [] ∧
       (85 : ℚ) / 100 ≤
         ((pyStrip line).countP (fun c => decide (c ∈ NUMERIC_CHARS)) : ℚ) /
           ((pyStrip line).length : ℚ) ∧
       (pyStrip line).takeWhile Char.isDigit ≠ [] ∧
       ((digitsToNat ((pyStrip line).takeWhile Char.isDigit) : ℤ) ∈ HEIGHTS ∨
        (digitsToNat ((pyStrip line).takeWhile Char.isDigit) : ℤ) ∈
          HEIGHT_FIXES.map Prod.fst)) := by
  rw [isDataLine_iff]
  constructor
  · rintro ⟨hne, hd, hds, hm⟩
    have hlen : 0 < (pyStrip line).length := List.length_pos.mpr hne
    refine ⟨hne, (density_le_iff _ _ hlen).mpr hd, hds, ?_⟩
    simpa [ALL_VALID_HEIGHTS] using hm
  · rintro ⟨hne, hd, hds, hm⟩
    have hlen : 0 < (pyStrip line).length := List.length_pos.mpr hne
    refine ⟨hne, (density_le_iff _ _ hlen).mp hd, hds, ?_⟩
    simpa [ALL_VALID_HEIGHTS] using hm

/-- Witness for C8: a concrete all-numeric line with height 10 is
accepted. -/
theorem C8_line_classifier_witness : isDataLine ("10 261 7".data) = true :=
  (C8_line_classifier ("10 261 7".data)).mpr (by decide)

/-- Claim C7: `extract_data_values` returns no result exactly when,
after comma-to-period normalization, fewer than three numeric tokens
are present; a successful result is the alias-normalized truncated
first token as height together with the remaining tokens in order; and
a line on which extraction fails is skipped by the page's row loop
without affecting the other lines. -/
theorem C7_row_extractor :
    (∀ line : Line, extractDataValues line = none ↔
      (findNumbers (commaFix (pyStrip line))).length < 3) ∧
    (∀ (line : Line) (h : ℤ) (vs : List ℚ), extractDataValues line = some (h, vs) →
      ∃ a : ℚ, findNumbers (commaFix (pyStrip line)) = a :: vs ∧
        h = fixHeight (truncQ a)) ∧
    (∀ (pre post : List Line) (bad : Line),
      extractDataValues (stripLineMarker (pyStrip bad)) = none →
      extractRows (pre ++ bad :: post) = extractRows (pre ++ post)) := by
  refine ⟨?_, ?_, ?_⟩
  · intro line
    rcases hl : findNumbers (commaFix (pyStrip line)) with - | ⟨a, - | ⟨b, - | ⟨c, rest⟩⟩⟩ <;>
      simp [extractDataValues, hl]
  · intro line h vs hsome
    rcases hl : findNumbers (commaFix (pyStrip line)) with - | ⟨a, - | ⟨b, - | ⟨c, rest⟩⟩⟩ <;>
      simp [extractDataValues, hl] at hsome
    obtain ⟨h1, h2⟩ := hsome
    exact ⟨a, by rw [h2], h1.symm⟩
  · intro pre post bad hbad
    simp only [extractRows, List.filterMap_append, List.filterMap_cons]
    split
    · rfl
    next heq =>
      exfalso
      revert heq
      split
      · rw [hbad]
        simp
      · simp

/-- Witness for C7 at concrete lines. -/
theorem C7_row_extractor_witness :
    (findNumbers (commaFix (pyStrip ("5".data)))).length < 3 ∧
    (∃ a : ℚ, findNumbers (commaFix (pyStrip ("10 1 2".data))) = a :: [1, 2] ∧
      (10 : ℤ) = fixHeight (truncQ a)) ∧
    extractRows ([] ++ ("abc".data) :: []) = extractRows ([] ++ []) :=
  ⟨(C7_row_extractor.1 ("5".data)).mp (by decide),
   C7_row_extractor.2.1 ("10 1 2".data) 10 [1, 2] (by decide),
   C7_row_extractor.2.2 [] [] ("abc".data) (by decide)⟩

/-- Witness for C2 at the concrete row [261, 7, 5] with expected count
2 (one excess value). -/
theorem C2_decimal_recovery_witness :
    (2 ≤ (tryMergeSplitDecimals [261, 7, 5] 2).length ∧
      (tryMergeSplitDecimals [261, 7, 5] 2).length ≤ 3) ∧
    mergeGo [261, 7, 5] 1 =
      ((261 : ℚ) + (if (0 : ℚ) ≤ 261 then (1 : ℚ) else -1) * 7 / 10) :: mergeGo [5] 0 ∧
    mergeGo [3 / 10, 7, 5] 1 = (3 / 10) :: mergeGo [7, 5] 1 ∧
    mergeGo [261, 7, 5] 0 = (261 : ℚ) :: mergeGo [7, 5] 0 ∧
    (tryMergeSplitDecimals [261, 7, 5] 2).head? = some (2617 / 10) :=
  ⟨C2_decimal_recovery.1 [261, 7, 5] 2 (by decide),
   C2_decimal_recovery.2.1 261 7 [5] 0 (by decide) (by decide) (by decide)
     (by decide) (by decide),
   C2_decimal_recovery.2.2.1 (3 / 10) 7 [5] 1 (by decide),
   C2_decimal_recovery.2.2.2.1 261 7 [5],
   C2_decimal_recovery.2.2.2.2 [5]⟩

/-- A comma-fix pass never changes the first character. -/
theorem commaFix_head? : ∀ l : List Char, (commaFix l).head? = l.head?
  | [] => rfl
  | [a] => rfl
  | [a, b] => rfl
  | a :: b :: c :: rest => by
    rw [commaFix]
    split <;> simp

/-- Comma normalization of a line that starts with a digit run keeps
that run intact: only a comma (followed by a digit) directly after the
run can change, becoming a period. -/
theorem commaFix_digits : ∀ (ds t : List Char),
    (∀ c ∈ ds, c.isDigit = true) → (∀ c, t.head? = some c → c.isDigit = false) →
    ∃ u, commaFix (ds ++ t) = ds ++ u ∧ (∀ c, u.head? = some c → c.isDigit = false)
  | [], t, _, ht => by
    refine ⟨commaFix t, rfl, fun c hc => ?_⟩
    rw [commaFix_head? t] at hc
    exact ht c hc
  | [d], t, hds, ht => by
    match t with
    | [] => exact ⟨[], rfl, by simp⟩
    | [c] =>
      refine ⟨[c], rfl, fun x hx => ?_⟩
      simp only [List.head?_cons, Option.some_inj] at hx
      subst hx
      exact ht c rfl
    | c2 :: c3 :: r =>
      show ∃ u, commaFix (d :: c2 :: c3 :: r) = d :: u ∧ _
      rw [commaFix]
      split
      · refine ⟨'.' :: c3 :: commaFix r, rfl, fun x hx => ?_⟩
        simp only [List.head?_cons, Option.some_inj] at hx
        subst hx
        decide
      · refine ⟨commaFix (c2 :: c3 :: r), rfl, fun x hx => ?_⟩
        rw [commaFix_head?] at hx
        simp only [List.head?_cons, Option.some_inj] at hx
        subst hx
        exact ht c2 rfl
  | d1 :: d2 :: ds, t, hds, ht => by
    have hd2 : d2.isDigit = true := hds d2 (by simp)
    cases hX : ds ++ t with
    | nil =>
      obtain ⟨rfl, rfl⟩ := List.append_eq_nil.mp hX
      exact ⟨[], rfl, by simp⟩
    | cons x xs =>
      obtain ⟨u, hu1, hu2⟩ := commaFix_digits (d2 :: ds) t
        (fun c hc => hds c (List.mem_cons_of_mem d1 hc)) ht
      refine ⟨u, ?_, hu2⟩
      show commaFix (d1 :: d2 :: (ds ++ t)) = d1 :: d2 :: ds ++ u
      rw [hX, commaFix, if_neg]
      · have hcf : commaFix (d2 :: x :: xs) = d2 :: ds ++ u := by
          rw [← hX]
          exact hu1
        rw [hcf]
        simp
      · simp only [Bool.and_eq_true, decide_eq_true_eq, not_and]
        rintro ⟨-, rfl⟩
        intro hxd
        exact absurd hd2 (by decide)

/-- Splitting a span: `takeWhile`/`dropWhile` on a list made of a
satisfying span followed by a non-satisfying head. -/
theorem takeWhile_append_all {p : Char → Bool} : ∀ (ds u : List Char),
    (∀ c ∈ ds, p c = true) → (∀ c, u.head? = some c → p c = false) →
    (ds ++ u).takeWhile p = ds ∧ (ds ++ u).dropWhile p = u
  | [], u, _, hu => by
    constructor <;>
      · cases u with
        | nil => rfl
        | cons c cs => simp [List.takeWhile_cons, List.dropWhile_cons, hu c rfl]
  | d :: ds, u, hds, hu => by
    have hd : p d = true := hds d (by simp)
    have ih := takeWhile_append_all ds u (fun c hc => hds c (by simp [hc])) hu
    simp only [List.cons_append, List.takeWhile_cons_of_pos hd,
      List.dropWhile_cons_of_pos hd, ih.1, ih.2, and_self]

/-- A digit character's code point lies between 48 and 57. -/
theorem digit_toNat_bounds {c : Char} (h : c.isDigit = true) :
    48 ≤ c.toNat ∧ c.toNat ≤ 57 := by
  simp only [Char.isDigit, Bool.and_eq_true, decide_eq_true_eq] at h
  exact ⟨h.1, h.2⟩

/-- Accumulator bound for the digit-run fold. -/
theorem digitsToNat_fold_lt : ∀ (l : List Char) (n : ℕ),
    (∀ c ∈ l, c.isDigit = true) →
    l.foldl (fun n c => 10 * n + (c.toNat - 48)) n < (n + 1) * 10 ^ l.length
  | [], n, _ => by simp
  | c :: cs, n, h => by
    have hc : c.toNat - 48 ≤ 9 := by
      have := digit_toNat_bounds (h c (by simp))
      omega
    have ih := digitsToNat_fold_lt cs (10 * n + (c.toNat - 48))
      (fun x hx => h x (by simp [hx]))
    simp only [List.foldl_cons, List.length_cons]
    calc cs.foldl (fun n c => 10 * n + (c.toNat - 48)) (10 * n + (c.toNat - 48))
        < (10 * n + (c.toNat - 48) + 1) * 10 ^ cs.length := ih
      _ ≤ (n + 1) * 10 ^ (cs.length + 1) := by
          rw [pow_succ]
          have h1 : 10 * n + (c.toNat - 48) + 1 ≤ (n + 1) * 10 := by omega
          calc (10 * n + (c.toNat - 48) + 1) * 10 ^ cs.length
              ≤ ((n + 1) * 10) * 10 ^ cs.length := Nat.mul_le_mul_right _ h1
            _ = (n + 1) * (10 ^ cs.length * 10) := by ring

/-- A run of k digits denotes a value below 10^k. -/
theorem digitsToNat_lt (l : List Char) (h : ∀ c ∈ l, c.isDigit = true) :
    digitsToNat l < 10 ^ l.length := by
  have := digitsToNat_fold_lt l 0 h
  simpa [digitsToNat] using this

/-- Truncating a natural number plus a fractional part in [0, 1)
returns the natural number. -/
theorem truncQ_add_fract (n : ℕ) (f : ℚ) (h0 : 0 ≤ f) (h1 : f < 1) :
    truncQ ((n : ℚ) + f) = n := by
  have hq : (0 : ℚ) ≤ (n : ℚ) + f := by positivity
  rw [truncQ, if_pos hq, Int.floor_eq_iff]
  constructor
  · push_cast
    linarith
  · push_cast
    linarith

/-- A successful token match consumes at least one character. -/
theorem parseNum_consumes : ∀ {l : List Char} {q : ℚ} {r : List Char},
    parseNum l = some (q, r) → r.length < l.length := by
  intro l q r h
  simp only [parseNum] at h
  set l1 := if (l.head? == some '-') = true then l.tail else l with hl1
  by_cases hds : (l1.takeWhile Char.isDigit).isEmpty
  · rw [if_pos hds] at h
    exact absurd h (by simp)
  · rw [if_neg hds] at h
    have hl1len : l1.length ≤ l.length := by
      rw [hl1]
      split
      · simp [List.length_tail]
      · exact le_refl _
    have hsum : (l1.takeWhile Char.isDigit).length + (l1.dropWhile Char.isDigit).length
        = l1.length := by
      conv_rhs => rw [← List.takeWhile_append_dropWhile (p := Char.isDigit) (l := l1)]
      rw [List.length_append]
    have htw : 1 ≤ (l1.takeWhile Char.isDigit).length := by
      rcases hx : l1.takeWhile Char.isDigit with - | ⟨a, b⟩
      · rw [hx] at hds
        simp at hds
      · simp
    by_cases hdot : (l1.dropWhile Char.isDigit).head? = some '.'
    · rw [if_pos hdot] at h
      have hdw : l1.dropWhile Char.isDigit ≠ [] := by
        intro h0
        rw [h0] at hdot
        simp at hdot
      have h1 : r = (l1.dropWhile Char.isDigit).tail.dropWhile Char.isDigit := by
        have := (Option.some_inj.mp h)
        exact (congrArg Prod.snd this).symm
      have h2 : ((l1.dropWhile Char.isDigit).tail.dropWhile Char.isDigit).length ≤
          (l1.dropWhile Char.isDigit).tail.length :=
        (List.dropWhile_sublist Char.isDigit).length_le
      have h3 : (l1.dropWhile Char.isDigit).tail.length =
          (l1.dropWhile Char.isDigit).length - 1 := List.length_tail _
      rw [h1]
      omega
    · rw [if_neg hdot] at h
      have h1 : r = l1.dropWhile Char.isDigit := by
        have := (Option.some_inj.mp h)
        exact (congrArg Prod.snd this).symm
      rw [h1]
      omega

/-- Any sufficient fuel computes the same token list, so fuel equal to
the input length (as in `findNumbers`) is canonical. -/
theorem findNumbersGo_eq (f : ℕ) : ∀ (l : List Char), l.length ≤ f →
    findNumbersGo f l = findNumbersGo l.length l := by
  induction f using Nat.strong_induction_on with
  | _ f ih =>
    intro l hl
    match f, l with
    | 0, l =>
      have h0 : l = [] := List.eq_nil_of_length_eq_zero (by omega)
      rw [h0]
      rfl
    | f + 1, [] => rfl
    | f + 1, c :: rest =>
      simp only [List.length_cons] at hl ⊢
      cases hp : parseNum (c :: rest) with
      | some qr =>
        obtain ⟨q, r⟩ := qr
        have hlt := parseNum_consumes hp
        simp only [List.length_cons] at hlt
        show findNumbersGo (f + 1) (c :: rest) = findNumbersGo (rest.length + 1) (c :: rest)
        rw [findNumbersGo, findNumbersGo, hp]
        show q :: findNumbersGo f r = q :: findNumbersGo rest.length r
        have e1 := ih f (by omega) r (by omega)
        have e2 := ih rest.length (by omega) r (by omega)
        rw [e1, e2]
      | none =>
        show findNumbersGo (f + 1) (c :: rest) = findNumbersGo (rest.length + 1) (c :: rest)
        rw [findNumbersGo, findNumbersGo, hp]
        show findNumbersGo f rest = findNumbersGo rest.length rest
        exact ih f (by omega) rest (by omega)

/-- Scanning step: a match at the head emits its value and resumes
after it. -/
theorem findNumbers_cons_some {l : List Char} {q : ℚ} {r : List Char}
    (hp : parseNum l = some (q, r)) :
    findNumbers l = q :: findNumbers r := by
  match l with
  | [] => simp [parseNum] at hp
  | c :: rest =>
    have hlt := parseNum_consumes hp
    simp only [List.length_cons] at hlt
    rw [findNumbers, findNumbers]
    simp only [List.length_cons]
    rw [findNumbersGo, hp]
    show q :: findNumbersGo rest.length r = q :: findNumbersGo r.length r
    congr 1
    exact findNumbersGo_eq rest.length r (by omega)

/-- Scanning step: no match at the head skips one character. -/
theorem findNumbers_cons_none {c : Char} {rest : List Char}
    (hp : parseNum (c :: rest) = none) :
    findNumbers (c :: rest) = findNumbers rest := by
  rw [findNumbers, findNumbers]
  simp only [List.length_cons]
  rw [findNumbersGo, hp]

/-- The token match at the head of a digit run (followed by a
non-digit) yields the run's value plus a fractional part made of the
digits right after a period, if any. -/
theorem parseNum_digits (ds u : List Char) (hne : ds ≠ [])
    (hds : ∀ c ∈ ds, c.isDigit = true)
    (hu : ∀ c, u.head? = some c → c.isDigit = false) :
    ∃ fs r, parseNum (ds ++ u) =
        some ((digitsToNat ds : ℚ) + (digitsToNat fs : ℚ) / (10 : ℚ) ^ fs.length, r) ∧
      (∀ c ∈ fs, c.isDigit = true) := by
  obtain ⟨d, ds', rfl⟩ := List.exists_cons_of_ne_nil hne
  have hd : d.isDigit = true := hds d (by simp)
  have hneg : ((d :: ds' ++ u).head? == some '-') = false := by
    simp only [List.cons_append, List.head?_cons]
    rw [beq_eq_false_iff_ne]
    intro hEq
    rw [Option.some_inj] at hEq
    subst hEq
    exact absurd hd (by decide)
  have hsp := takeWhile_append_all (p := Char.isDigit) (d :: ds') u hds hu
  simp only [List.cons_append] at hsp
  have hdne : ¬ d = '-' := by
    intro hEq
    subst hEq
    exact absurd hd (by decide)
  by_cases hdot : u.head? = some ('.' : Char)
  · obtain ⟨u', rfl⟩ : ∃ t, u = '.' :: t := by
      cases u with
      | nil => simp at hdot
      | cons c t =>
        simp only [List.head?_cons, Option.some_inj] at hdot
        exact ⟨t, by rw [hdot]⟩
    refine ⟨u'.takeWhile Char.isDigit, u'.dropWhile Char.isDigit, ?_,
      fun c hc => List.mem_takeWhile_imp hc⟩
    simp [parseNum, hdne, hsp.1, hsp.2]
  · refine ⟨[], u, ?_, by simp⟩
    simp [parseNum, hdne, hsp.1, hsp.2, hdot, digitsToNat]

/-- On a line the classifier accepted, a successful extraction returns
a canonical height: the classifier checked the leading digit run
against heights-plus-aliases, the extractor's first token truncates
back to that same run's value, and the alias map sends every accepted
value into the canonical set. -/
theorem extract_height_canonical (line : Line) (h : ℤ) (vs : List ℚ)
    (hclass : isDataLine line = true)
    (hext : extractDataValues line = some (h, vs)) : h ∈ HEIGHTS := by
  have fixmem : ∀ z ∈ ALL_VALID_HEIGHTS, fixHeight z ∈ HEIGHTS := by decide
  obtain ⟨-, -, hds, hmem⟩ := (isDataLine_iff line).mp hclass
  have hdsall : ∀ c ∈ (pyStrip line).takeWhile Char.isDigit, c.isDigit = true :=
    fun c hc => List.mem_takeWhile_imp hc
  have hthead : ∀ c, ((pyStrip line).dropWhile Char.isDigit).head? = some c →
      c.isDigit = false := by
    intro c hc
    have hk := List.head?_dropWhile_not Char.isDigit (pyStrip line)
    rw [hc] at hk
    exact hk
  obtain ⟨u, hcf, huh⟩ := commaFix_digits ((pyStrip line).takeWhile Char.isDigit)
    ((pyStrip line).dropWhile Char.isDigit) hdsall hthead
  rw [List.takeWhile_append_dropWhile] at hcf
  obtain ⟨fs, r, hpn, hfs⟩ := parseNum_digits ((pyStrip line).takeWhile Char.isDigit)
    u hds hdsall huh
  have hfind : findNumbers (commaFix (pyStrip line)) =
      ((digitsToNat ((pyStrip line).takeWhile Char.isDigit) : ℚ) +
        (digitsToNat fs : ℚ) / (10 : ℚ) ^ fs.length) :: findNumbers r := by
    rw [hcf]
    exact findNumbers_cons_some hpn
  simp only [extractDataValues, hfind] at hext
  rcases hr : findNumbers r with - | ⟨b, - | ⟨c, rest⟩⟩ <;> rw [hr] at hext <;>
    simp only [Option.some_inj] at hext
  · exact absurd hext (by simp)
  · exact absurd hext (by simp)
  · have hfrac0 : 0 ≤ (digitsToNat fs : ℚ) / (10 : ℚ) ^ fs.length := by positivity
    have hfrac1 : (digitsToNat fs : ℚ) / (10 : ℚ) ^ fs.length < 1 := by
      rw [div_lt_one (by positivity)]
      exact_mod_cast digitsToNat_lt fs hfs
    have htr := truncQ_add_fract (digitsToNat ((pyStrip line).takeWhile Char.isDigit))
      _ hfrac0 hfrac1
    have hh : h = fixHeight (digitsToNat ((pyStrip line).takeWhile Char.isDigit) : ℤ) := by
      rw [← htr]
      exact (congrArg Prod.fst hext).symm
    rw [hh]
    exact fixmem _ hmem

/-- Claim C10: every line that passes `is_data_line` and
`extract_data_values` yields a height in the canonical `HEIGHTS` set,
so the extra height-membership filter in `parse_data_page` never
discards such a line: the row loop equals the same loop without the
filter. -/
theorem C10_heights_canonical :
    (∀ (line : Line) (h : ℤ) (vs : List ℚ), isDataLine line = true →
      extractDataValues line = some (h, vs) → h ∈ HEIGHTS) ∧
    (∀ rawLines : List Line,
      extractRows rawLines = rawLines.filterMap fun raw =>
        let line := stripLineMarker (pyStrip raw)
        if isDataLine line then extractDataValues line else none) := by
  refine ⟨extract_height_canonical, ?_⟩
  intro rawLines
  rw [extractRows]
  apply List.filterMap_congr
  rintro raw -
  by_cases hc : isDataLine (stripLineMarker (pyStrip raw))
  · simp only [hc, if_true]
    cases he : extractDataValues (stripLineMarker (pyStrip raw)) with
    | none => rfl
    | some p =>
      obtain ⟨h, vs⟩ := p
      have := extract_height_canonical _ h vs hc he
      simp [this]
  · simp [hc]

/-- Witness for C10: the alias height 1200 is normalized to 1000, which
is canonical, and the filter-free row loop agrees on a concrete page. -/
theorem C10_heights_canonical_witness :
    ((1000 : ℤ) ∈ HEIGHTS) ∧
    extractRows [("1200 4 5".data)] = List.filterMap (fun raw =>
      let line := stripLineMarker (pyStrip raw)
      if isDataLine line then extractDataValues line else none) [("1200 4 5".data)] :=
  ⟨C10_heights_canonical.1 ("1200 4 5".data) 1000 [4, 5] (by decide) (by decide),
   C10_heights_canonical.2 [("1200 4 5".data)]⟩

/-- The source's conditional slot read equals an index lookup with
absent propagation: out-of-range and stored-absent both give `none`. -/
theorem slotVal_eq_join (row : List (Option ℚ)) (j : ℕ) :
    slotVal row j = (row.get? j).join := by
  rw [slotVal, List.get?_eq_getElem?]
  rcases hg : row[j]? with - | ⟨- | x⟩ <;> simp [hg]

/-- The page fold accumulates exactly the concatenated per-page writes
and the count of failed pages, for any starting accumulator. -/
theorem buildDataModule_spec (input : ℕ → Option (List Line)) : ∀ (L : List ℕ)
    (e0 : List Entry) (w0 : ℕ),
    L.foldl (fun acc n =>
      match parsePage (input n) (gridOf n).length with
      | none => (acc.1, acc.2 + 1)
      | some _ => (acc.1 ++ pageEntriesList input n, acc.2)) (e0, w0) =
    (e0 ++ L.flatMap (pageEntriesList input),
     w0 + (L.filter fun n =>
       decide (parsePage (input n) (gridOf n).length = none)).length)
  | [], e0, w0 => by simp
  | n :: L, e0, w0 => by
    cases hp : parsePage (input n) (gridOf n).length with
    | none =>
      have hpe : pageEntriesList input n = [] := by
        simp [pageEntriesList, hp]
      simp only [List.foldl_cons, hp]
      rw [buildDataModule_spec input L e0 (w0 + 1)]
      refine Prod.ext ?_ ?_
      · simp [hpe]
      · simp [hp]
        omega
    | some sd =>
      simp only [List.foldl_cons, hp]
      rw [buildDataModule_spec input L (e0 ++ pageEntriesList input n) w0]
      refine Prod.ext ?_ ?_
      · simp [List.append_assoc]
      · simp [hp]

/-- Claim C6: batch assembly is total and returns the entries of the
pages that succeeded plus the count of failed pages: the write log is
the concatenation of per-page logs over all pages, the failure count
is the number of pages whose parse (missing resource or failed
segmentation) returned none, a failed page contributes no writes, and
a page's contribution depends only on that page's own input, so one
page's failure cannot affect another page. -/
theorem C6_batch_totality :
    (∀ input : ℕ → Option (List Line),
      (buildDataModule input).1 = pagesList.flatMap (pageEntriesList input)) ∧
    (∀ input : ℕ → Option (List Line),
      (buildDataModule input).2 = (pagesList.filter fun n =>
        decide (parsePage (input n) (gridOf n).length = none)).length) ∧
    (∀ (input : ℕ → Option (List Line)) (n : ℕ),
      parsePage (input n) (gridOf n).length = none →
      pageEntriesList input n = []) ∧
    (∀ (input input' : ℕ → Option (List Line)) (n : ℕ), input n = input' n →
      pageEntriesList input n = pageEntriesList input' n) := by
  refine ⟨?_, ?_, ?_, ?_⟩
  · intro input
    rw [buildDataModule, buildDataModule_spec input pagesList [] 0]
    simp
  · intro input
    rw [buildDataModule, buildDataModule_spec input pagesList [] 0]
    simp
  · intro input n hp
    simp [pageEntriesList, hp]
  · intro input input' n h
    simp only [pageEntriesList, h]

/-- Witness for C6: a missing page contributes nothing, and two
batches agreeing on a page contribute identically for it. -/
theorem C6_batch_totality_witness :
    pageEntriesList onePageInput 10 = [] ∧
    pageEntriesList onePageInput 11 = pageEntriesList (fun _ => none) 11 :=
  ⟨C6_batch_totality.2.2.1 onePageInput 10 (by decide),
   C6_batch_totality.2.2.2 onePageInput (fun _ => none) 11 (by decide)⟩

/-- Claim C5: the assembler builds the pair for the location at column
index i from row slots 2i and 2i+1; an absent slot (out of range or
stored `None`) yields an absent output value, never zero; and a
repeated (parameter, location, season) key resolves to the last write
without error. -/
theorem C5_assembler_slots :
    (∀ (row : List (Option ℚ)) (j : ℕ), slotVal row j = (row.get? j).join) ∧
    (∀ (row : List (Option ℚ)) (j : ℕ), row.get? j = some none → slotVal row j = none) ∧
    (∀ (input : ℕ → Option (List Line)) (n : ℕ)
      (sd : List (String × List (List (Option ℚ)))),
      parsePage (input n) (gridOf n).length = some sd →
      ∀ (s : String) (blk : List (List (Option ℚ))), (s, blk) ∈ sd →
      ∀ (i : ℕ) (l : ℤ × ℤ), (gridOf n).get? i = some l →
        (⟨paramNameOf n, l, s, blk.map fun row =>
            ((row.get? (2 * i)).join, (row.get? (2 * i + 1)).join)⟩ : Entry) ∈
          pageEntriesList input n) ∧
    (∀ (es : List Entry) (p : String) (l : ℤ × ℤ) (s : String)
      (d : List (Option ℚ × Option ℚ)),
      lookupSeason (es ++ [⟨p, l, s, d⟩]) p l s = some d) := by
  refine ⟨slotVal_eq_join, ?_, ?_, ?_⟩
  · intro row j h
    rw [slotVal_eq_join, h]
    rfl
  · intro input n sd hp s blk hmem i l hget
    simp only [pageEntriesList, hp]
    rw [List.mem_flatMap]
    refine ⟨(s, blk), hmem, ?_⟩
    rw [List.mem_map]
    refine ⟨(i, l), List.mk_mem_enum_iff_get?.mpr hget, ?_⟩
    have hhd : mkHeightData blk i = blk.map fun row =>
        ((row.get? (2 * i)).join, (row.get? (2 * i + 1)).join) := by
      unfold mkHeightData
      exact List.map_congr_left fun row _ => by
        rw [slotVal_eq_join, slotVal_eq_join]
    rw [hhd]
  · intro es p l s d
    unfold lookupSeason
    rw [List.filter_append, List.map_append]
    have hf : List.filter (fun (e : Entry) => e.param == p && e.loc == l && e.season == s)
        [⟨p, l, s, d⟩] = [⟨p, l, s, d⟩] := by
      simp [List.filter]
    rw [hf]
    simp

/-- Witness for C5 at the one-line page and a concrete write log. -/
theorem C5_assembler_slots_witness :
    slotVal [some (1 : ℚ), none] 1 = ([some (1 : ℚ), none].get? 1).join ∧
    slotVal [some (1 : ℚ), none] 1 = none ∧
    (⟨paramNameOf 9, (55, 20), "winter",
        ((((some (1 : ℚ)) :: (some 2) :: List.replicate 12 none) ::
          List.replicate 8 (List.replicate 14 (none : Option ℚ))).map fun row =>
            ((row.get? (2 * 0)).join, (row.get? (2 * 0 + 1)).join))⟩ : Entry) ∈
      pageEntriesList onePageInput 9 ∧
    lookupSeason [⟨"t", (1, 2), "winter", []⟩] "t" (1, 2) "winter" = some [] :=
  ⟨C5_assembler_slots.1 [some (1 : ℚ), none] 1,
   C5_assembler_slots.2.1 [some (1 : ℚ), none] 1 (by decide),
   C5_assembler_slots.2.2.1 onePageInput 9
     [("winter", ((some (1 : ℚ)) :: (some 2) :: List.replicate 12 none) ::
        List.replicate 8 (List.replicate 14 (none : Option ℚ)))]
     (by decide) "winter" _ (by decide) 0 (55, 20) (by decide),
   C5_assembler_slots.2.2.2 [] "t" (1, 2) "winter" []⟩

/-- Filtering and mapping distribute over a concatenated page fold. -/
theorem flatMap_filter_map {α β γ : Type _} (q : β → Bool) (g : β → γ) :
    ∀ (L : List α) (f : α → List β),
    ((L.flatMap f).filter q).map g = L.flatMap fun a => ((f a).filter q).map g
  | [], _ => rfl
  | a :: L, f => by
    simp only [List.flatMap_cons, List.filter_append, List.map_append,
      flatMap_filter_map q g L f]

/-- When at most one element of a duplicate-free list contributes a
nonempty block, the concatenation is empty or that one block. -/
theorem flatMap_single {α β : Type _} : ∀ (L : List α) (f : α → List β), L.Nodup →
    (∀ a1 ∈ L, ∀ a2 ∈ L, f a1 ≠ [] → f a2 ≠ [] → a1 = a2) →
    L.flatMap f = [] ∨ ∃ a ∈ L, L.flatMap f = f a
  | [], f, _, _ => Or.inl rfl
  | a :: L, f, hnd, h => by
    have hndL : L.Nodup := (List.nodup_cons.mp hnd).2
    have haL : a ∉ L := (List.nodup_cons.mp hnd).1
    cases hfa : f a with
    | nil =>
      rcases flatMap_single L f hndL
          (fun x hx y hy => h x (List.mem_cons_of_mem a hx) y (List.mem_cons_of_mem a hy))
        with h0 | ⟨b, hb, he⟩
      · left
        simp [List.flatMap_cons, hfa, h0]
      · right
        exact ⟨b, List.mem_cons_of_mem a hb, by simp [List.flatMap_cons, hfa, he]⟩
    | cons x xs =>
      right
      refine ⟨a, List.mem_cons_self a L, ?_⟩
      have hL : ∀ b ∈ L, f b = [] := by
        intro b hb
        by_contra hfb
        have hab := h a (List.mem_cons_self a L) b (List.mem_cons_of_mem a hb)
          (by simp [hfa]) hfb
        exact haL (hab ▸ hb)
      simp [List.flatMap_cons, List.flatMap_eq_nil_iff.mpr hL]

/-- Mapping a function of the index over an enumeration is mapping it
over the index range. -/
theorem enumFrom_map_fst_apply {β : Type _} (g : ℕ → β) : ∀ (k : ℕ) (l : List ℕ),
    (l.enumFrom k).map (fun q => g q.1) = (List.range' k l.length).map g
  | _, [] => rfl
  | k, a :: l => by
    simp only [List.enumFrom, List.map_cons, List.length_cons, List.range',
      enumFrom_map_fst_apply g (k + 1) l]

/-- The first k season labels form the k-prefix of `SEASONS`. -/
theorem seasons_take (k : ℕ) (hk : k ≤ 5) :
    (List.range k).map (fun i => SEASONS.getD i "") = SEASONS.take k := by
  have : k = 0 ∨ k = 1 ∨ k = 2 ∨ k = 3 ∨ k = 4 ∨ k = 5 := by omega
  rcases this with rfl | rfl | rfl | rfl | rfl | rfl <;> decide

/-- The season keys produced by the season loop are the first
`min 5 (number of starts)` season labels, in order. -/
theorem segmentRows_names (rows : List (ℤ × List ℚ)) (ev : ℕ) (ss : List ℕ) :
    (segmentRows rows ev ss).map Prod.fst = SEASONS.take (min 5 ss.length) := by
  have h1 : (segmentRows rows ev ss).map Prod.fst =
      ((ss.take 5).enum.map (fun q => SEASONS.getD q.1 "")) := by
    simp [segmentRows, Function.comp]
  rw [h1]
  have h2 := enumFrom_map_fst_apply (fun i => SEASONS.getD i "") 0 (ss.take 5)
  rw [show (ss.take 5).enum = (ss.take 5).enumFrom 0 from rfl, h2,
    ← List.range_eq_range', List.length_take]
  exact seasons_take _ (by omega)

/-- A successful segmentation yields blocks keyed by a nonempty prefix
of the season list: five boundaries or the 45-row fallback give all
five, salvage gives `min 5 (boundary count)` which is at least one. -/
theorem parse_seasons (rows : List (ℤ × List ℚ)) (cols : ℕ)
    (sd : List (String × List (List (Option ℚ))))
    (h : parsePageRows rows cols = some sd) :
    ∃ k, 1 ≤ k ∧ k ≤ 5 ∧ sd.map Prod.fst = SEASONS.take k := by
  simp only [parsePageRows] at h
  split_ifs at h with h1 h2 h3
  · rw [Option.some_inj] at h
    subst h
    refine ⟨5, by omega, by omega, ?_⟩
    rw [segmentRows_names, h1]
    norm_num
  · rw [Option.some_inj] at h
    subst h
    refine ⟨5, by omega, by omega, ?_⟩
    rw [segmentRows_names]
    norm_num
  · rw [Option.some_inj] at h
    subst h
    refine ⟨min 5 (seasonStarts rows).length, ?_, by omega, by rw [segmentRows_names]⟩
    have : (seasonStarts rows).length ≠ 0 := by
      intro h0
      exact h3 (List.isEmpty_iff.mpr (List.length_eq_zero.mp h0))
    omega

/-- Filtering one season's per-location writes down to a single
(parameter, location) pair keeps exactly one entry when the parameter
matches and the location is in the (duplicate-free) grid, else none. -/
theorem enum_entry_filter_from (P : String) (s : String)
    (hdf : ℕ → List (Option ℚ × Option ℚ)) (p : String) (l : ℤ × ℤ) :
    ∀ (k : ℕ) (g : List (ℤ × ℤ)), g.Nodup →
    (((g.enumFrom k).map fun q => (⟨P, q.2, s, hdf q.1⟩ : Entry)).filter
      (fun e => e.param == p && e.loc == l)).map Entry.season =
    if p = P ∧ l ∈ g then [s] else []
  | k, [], _ => by simp
  | k, x :: g, hnd => by
    have hx : x ∉ g := (List.nodup_cons.mp hnd).1
    have ih := enum_entry_filter_from P s hdf p l (k + 1) g (List.nodup_cons.mp hnd).2
    simp only [List.enumFrom, List.map_cons, List.filter_cons]
    by_cases hm : ((P == p) && (x == l)) = true
    · simp only [Bool.and_eq_true, beq_iff_eq] at hm
      obtain ⟨rfl, rfl⟩ := hm
      rw [if_pos (by simp : ((P == P) && (x == x)) = true)]
      simp only [List.map_cons, ih]
      rw [if_neg (fun hc => hx hc.2)]
      simp
    · rw [if_neg (by simpa using hm), ih]
      have hcond : (p = P ∧ l ∈ x :: g) ↔ (p = P ∧ l ∈ g) := by
        constructor
        · rintro ⟨rfl, hmem⟩
          rcases List.mem_cons.mp hmem with rfl | hmem
          · exact absurd (by simp) hm
          · exact ⟨rfl, hmem⟩
        · rintro ⟨rfl, hmem⟩
          exact ⟨rfl, List.mem_cons_of_mem x hmem⟩
      rw [if_congr hcond rfl rfl]

/-- The season keys a page contributes to a (parameter, location) pair:
none when the page failed or the pair is not this page's, else the
page's season keys in block order. -/
theorem pageSeasons_eq (input : ℕ → Option (List Line)) (n : ℕ) (p : String)
    (l : ℤ × ℤ) (hnd : (gridOf n).Nodup) :
    ((pageEntriesList input n).filter (fun e => e.param == p && e.loc == l)).map
      Entry.season =
    match parsePage (input n) (gridOf n).length with
    | none => []
    | some sd => if p = paramNameOf n ∧ l ∈ gridOf n then sd.map Prod.fst else [] := by
  cases hp : parsePage (input n) (gridOf n).length with
  | none => simp [pageEntriesList, hp]
  | some sd =>
    simp only [pageEntriesList, hp]
    rw [flatMap_filter_map]
    have key : ∀ sd0 : List (String × List (List (Option ℚ))),
        (sd0.flatMap fun a => (((gridOf n).enum.map fun q =>
            (⟨paramNameOf n, q.2, a.1, mkHeightData a.2 q.1⟩ : Entry)).filter
            (fun e => e.param == p && e.loc == l)).map Entry.season) =
        if p = paramNameOf n ∧ l ∈ gridOf n then sd0.map Prod.fst else [] := by
      intro sd0
      induction sd0 with
      | nil => simp
      | cons q sd0 ih =>
        rw [List.flatMap_cons, ih,
          show (gridOf n).enum = (gridOf n).enumFrom 0 from rfl,
          enum_entry_filter_from (paramNameOf n) q.1 (mkHeightData q.2) p l 0
            (gridOf n) hnd]
        by_cases hc : p = paramNameOf n ∧ l ∈ gridOf n
        · simp [hc]
        · simp [hc]
    exact key sd

/-- The nine parameter names are distinct. -/
theorem names_getD_inj : ∀ q1 < 9, ∀ q2 < 9,
    PARAM_NAMES.getD q1 "" = PARAM_NAMES.getD q2 "" → q1 = q2 := by decide

/-- Different longitude groups share no grid point. -/
theorem grids_disjoint : ∀ r1 ∈ List.range 12, ∀ r2 ∈ List.range 12, r1 ≠ r2 →
    ∀ x ∈ LOCATION_GRIDS.getD r1 [], x ∉ LOCATION_GRIDS.getD r2 [] := by decide

/-- Each longitude group lists distinct grid points. -/
theorem grids_nodup : ∀ r < 12, (LOCATION_GRIDS.getD r []).Nodup := by decide

/-- Two pages with the same parameter name and a common grid location
are the same page: the parameter fixes the page's dozen and the
disjoint grids fix the offset. -/
theorem page_unique (n1 n2 : ℕ) (h1 : n1 ∈ pagesList) (h2 : n2 ∈ pagesList)
    (p : String) (l : ℤ × ℤ)
    (hp1 : p = paramNameOf n1) (hl1 : l ∈ gridOf n1)
    (hp2 : p = paramNameOf n2) (hl2 : l ∈ gridOf n2) : n1 = n2 := by
  have hb1 : 9 ≤ n1 ∧ n1 < 117 := by
    obtain ⟨i, hi, rfl⟩ := List.mem_range'.mp h1
    omega
  have hb2 : 9 ≤ n2 ∧ n2 < 117 := by
    obtain ⟨i, hi, rfl⟩ := List.mem_range'.mp h2
    omega
  have hq1 : (n1 - 9) / 12 < 9 := by omega
  have hq2 : (n2 - 9) / 12 < 9 := by omega
  have hr1 : (n1 - 9) % 12 < 12 := by omega
  have hr2 : (n2 - 9) % 12 < 12 := by omega
  have hqeq : (n1 - 9) / 12 = (n2 - 9) / 12 := by
    apply names_getD_inj _ hq1 _ hq2
    have := hp1.symm.trans hp2
    simpa [paramNameOf] using this
  have hreq : (n1 - 9) % 12 = (n2 - 9) % 12 := by
    by_contra hne
    exact grids_disjoint _ (List.mem_range.mpr hr1) _ (List.mem_range.mpr hr2) hne l
      (by simpa [gridOf] using hl1) (by simpa [gridOf] using hl2)
  omega

/-- Amended claim C4: in the assembled dataset, every present
(parameter, location) pair maps over a nonempty prefix of the season
list [winter, spring, summer, autumn, annual] — at most five seasons,
all five in the normal cases, four exactly when the pair's page
salvaged with four boundaries (annual missing), and possibly fewer
when it salvaged with fewer boundaries. The original claim's "four or
five, never fewer" fails on the code (see the counterexample), and
which pairs miss trailing seasons depends on the input batch rather
than a fixed allow-list. -/
theorem C4_season_prefix (input : ℕ → Option (List Line)) (p : String) (l : ℤ × ℤ)
    (hpres : entriesFor input p l ≠ []) :
    ∃ k, 1 ≤ k ∧ k ≤ 5 ∧ seasonsOf input p l = SEASONS.take k := by
  classical
  set f : ℕ → List String := fun n =>
    ((pageEntriesList input n).filter (fun e => e.param == p && e.loc == l)).map
      Entry.season with hf
  have hseq : seasonsOf input p l = pagesList.flatMap f := by
    rw [seasonsOf, entriesFor, buildDataModule, buildDataModule_spec input pagesList [] 0]
    simp only [List.nil_append]
    exact flatMap_filter_map _ _ pagesList (pageEntriesList input)
  have hnd : ∀ n : ℕ, (gridOf n).Nodup := by
    intro n
    exact grids_nodup _ (by omega)
  have hcond : ∀ n, f n ≠ [] →
      (parsePage (input n) (gridOf n).length).isSome = true ∧
      p = paramNameOf n ∧ l ∈ gridOf n := by
    intro n hne
    simp only [hf] at hne
    rw [pageSeasons_eq input n p l (hnd n)] at hne
    cases hp : parsePage (input n) (gridOf n).length with
    | none => rw [hp] at hne; simp at hne
    | some sd =>
      rw [hp] at hne
      by_cases hc : p = paramNameOf n ∧ l ∈ gridOf n
      · exact ⟨by simp, hc⟩
      · exfalso
        apply hne
        simp [hc]
  have huniq : ∀ n1 ∈ pagesList, ∀ n2 ∈ pagesList, f n1 ≠ [] → f n2 ≠ [] → n1 = n2 := by
    intro n1 h1 n2 h2 hne1 hne2
    obtain ⟨-, hp1, hl1⟩ := hcond n1 hne1
    obtain ⟨-, hp2, hl2⟩ := hcond n2 hne2
    exact page_unique n1 n2 h1 h2 p l hp1 hl1 hp2 hl2
  rcases flatMap_single pagesList f (List.nodup_range' _ _) huniq with h0 | ⟨n, hn, he⟩
  · exfalso
    have hz : seasonsOf input p l = [] := by rw [hseq, h0]
    rw [seasonsOf] at hz
    exact hpres (List.map_eq_nil_iff.mp hz)
  · have hne : f n ≠ [] := by
      intro h0
      have hz : seasonsOf input p l = [] := by rw [hseq, he, h0]
      rw [seasonsOf] at hz
      exact hpres (List.map_eq_nil_iff.mp hz)
    obtain ⟨hsome, hpn, hln⟩ := hcond n hne
    cases hp : parsePage (input n) (gridOf n).length with
    | none => rw [hp] at hsome; simp at hsome
    | some sd =>
      have hfn : f n = sd.map Prod.fst := by
        simp only [hf]
        rw [pageSeasons_eq input n p l (hnd n), hp]
        simp [hpn, hln]
      cases hin : input n with
      | none => rw [hin] at hp; simp [parsePage] at hp
      | some lines =>
        rw [hin] at hp
        simp only [parsePage] at hp
        obtain ⟨k, hk1, hk5, hks⟩ := parse_seasons _ _ _ hp
        exact ⟨k, hk1, hk5, by rw [hseq, he, hfn, hks]⟩

/-- Witness for the amended C4 at the one-page batch. -/
theorem C4_season_prefix_witness :
    entriesFor onePageInput "temperature" (55, 20) ≠ [] ∧
    ∃ k, 1 ≤ k ∧ k ≤ 5 ∧
      seasonsOf onePageInput "temperature" (55, 20) = SEASONS.take k :=
  ⟨by decide, C4_season_prefix onePageInput "temperature" (55, 20) (by decide)⟩

/-- Counterexample to C4 as stated: in the batch `onePageInput`, the
pair (temperature, (55, 20)) is present but carries only the single
season "winter" — fewer than four seasons, and the missing seasons
include non-annual ones, so the season key set is neither all five
seasons nor the four non-annual seasons of the allow-list case. -/
theorem C4_seasons_counterexample :
    entriesFor onePageInput "temperature" (55, 20) ≠ [] ∧
    seasonsOf onePageInput "temperature" (55, 20) = ["winter"] ∧
    "spring" ∉ seasonsOf onePageInput "temperature" (55, 20) ∧
    "annual" ∉ seasonsOf onePageInput "temperature" (55, 20) := by
  decide

end Gost54084
